import Mathlib

/-
Shallow embedding of the N-body simulation engine
(n_body_simulator.py, n_body_simulator/base_simulation.py,
n_body_simulator/simulator_cpu.py, n_body_simulator/simulator_gpu.py).

Real-valued state is embedded over ℚ.  The two irrational kernels of the
code — x ↦ x ** (-1.5) (the softened inverse-cube factor `inv_r3`) and
x ↦ sqrt x (in the potential energy) — are abstracted as explicit function
parameters `f` and `sq` of type ℚ → ℚ; every theorem below is proved for
arbitrary such kernels, hence in particular for the real power and root
functions the code uses.
-/

namespace NBodySim

/-- The softened squared distance `dx ** 2 + dy ** 2 + softening ** 2`
between two points, the quantity to which the code applies `** (-1.5)`
(in `calculate_acceleration` / the inline loop of `update`) and `sqrt`
(in `calculate_energy`). -/
def dsq (soft : ℚ) (p q : ℚ × ℚ) : ℚ :=
  (q.1 - p.1) ^ 2 + (q.2 - p.2) ^ 2 + soft ^ 2

/-- Entry `j` of the code's `inv_r3` array for body `i`:
`inv_r3 = (dx**2 + dy**2 + softening**2) ** (-1.5)` followed by
`inv_r3[i] = 0` (self-interaction zeroed). `f` abstracts `x ↦ x**(-1.5)`. -/
def inv_r3val (f : ℚ → ℚ) (soft : ℚ) (pos : ℕ → ℚ × ℚ) (i j : ℕ) : ℚ :=
  if j = i then 0 else f (dsq soft (pos i) (pos j))

/-- The acceleration of body `i` as computed by the inline vectorized loop of
`NBodySimulation.update` (n_body_simulator.py lines 70-87):
`ax = G * dx * inv_r3 * masses` summed over all `j`, same for `ay`. -/
def accelOf (f : ℚ → ℚ) (G soft : ℚ) (n : ℕ) (pos : ℕ → ℚ × ℚ)
    (mass : ℕ → ℚ) (i : ℕ) : ℚ × ℚ :=
  (∑ j ∈ Finset.range n, G * ((pos j).1 - (pos i).1) * inv_r3val f soft pos i j * mass j,
   ∑ j ∈ Finset.range n, G * ((pos j).2 - (pos i).2) * inv_r3val f soft pos i j * mass j)

/-- The specification's force formula, written from the spec's words
(§4.2): `a_i = G * Σ_{j≠i} m_j * (r_j - r_i) / (|r_j - r_i|² + softening²)^1.5`,
with the same abstract kernel `f` interpreting `x ↦ x^(-1.5)`. -/
def specAccelFormula (f : ℚ → ℚ) (G soft : ℚ) (n : ℕ) (pos : ℕ → ℚ × ℚ)
    (mass : ℕ → ℚ) (i : ℕ) : ℚ × ℚ :=
  (G * ∑ j ∈ (Finset.range n).erase i,
      mass j * ((pos j).1 - (pos i).1) * f (dsq soft (pos i) (pos j)),
   G * ∑ j ∈ (Finset.range n).erase i,
      mass j * ((pos j).2 - (pos i).2) * f (dsq soft (pos i) (pos j)))

lemma dsq_comm (soft : ℚ) (p q : ℚ × ℚ) : dsq soft p q = dsq soft q p := by
  unfold dsq; ring

lemma inv_r3val_self (f : ℚ → ℚ) (soft : ℚ) (pos : ℕ → ℚ × ℚ) (i : ℕ) :
    inv_r3val f soft pos i i = 0 := by
  simp [inv_r3val]

/-- Summing a term that vanishes at `i` over `range n` equals summing over
`range n` with `i` erased. -/
lemma sum_range_eq_sum_erase (n i : ℕ) (g : ℕ → ℚ) (h : g i = 0) :
    ∑ j ∈ Finset.range n, g j = ∑ j ∈ (Finset.range n).erase i, g j :=
  (Finset.sum_erase _ h).symm

/-- The code's per-axis sum over all `j` (with the self-entry zeroed) equals
`G` times the spec's sum over `j ≠ i`. -/
lemma accel_component_eq (f : ℚ → ℚ) (G soft : ℚ) (n : ℕ) (pos : ℕ → ℚ × ℚ)
    (mass : ℕ → ℚ) (i : ℕ) (c : ℚ × ℚ → ℚ) :
    ∑ j ∈ Finset.range n, G * (c (pos j) - c (pos i)) * inv_r3val f soft pos i j * mass j
      = G * ∑ j ∈ (Finset.range n).erase i,
          mass j * (c (pos j) - c (pos i)) * f (dsq soft (pos i) (pos j)) := by
  rw [sum_range_eq_sum_erase n i _ (by simp [inv_r3val_self])]
  rw [Finset.mul_sum]
  refine Finset.sum_congr rfl ?_
  intro j hj
  have hji : j ≠ i := Finset.ne_of_mem_erase hj
  rw [inv_r3val, if_neg hji]
  ring

/-- The per-`j` contribution arrays `(ax, ay)` returned by
`BaseNBodySimulation.calculate_acceleration(self, i)`
(base_simulation.py lines 69-78):
`ax = G * dx * inv_r3 * masses`, `ay = G * dy * inv_r3 * masses`,
with `inv_r3[i] = 0`. -/
def calculate_acceleration (f : ℚ → ℚ) (G soft : ℚ) (pos : ℕ → ℚ × ℚ)
    (mass : ℕ → ℚ) (i : ℕ) : (ℕ → ℚ) × (ℕ → ℚ) :=
  (fun j => G * ((pos j).1 - (pos i).1) * inv_r3val f soft pos i j * mass j,
   fun j => G * ((pos j).2 - (pos i).2) * inv_r3val f soft pos i j * mass j)

/-- Modelled from the spec: `calculate_acceleration_helper` is imported from
`base_simulation` by simulator_cpu.py and simulator_gpu.py but its definition
is absent from the sources.  Per the force-backend contract of spec §4.2 —
and matching `BaseNBodySimulation.calculate_acceleration`, whose argument list
`(positions, masses, G, softening, i)` it takes as a tuple — it produces the
per-`j` contribution arrays `(ax, ay)` for body `i`. -/
def calculate_acceleration_helper (f : ℚ → ℚ) (pos : ℕ → ℚ × ℚ)
    (mass : ℕ → ℚ) (G soft : ℚ) (i : ℕ) : (ℕ → ℚ) × (ℕ → ℚ) :=
  calculate_acceleration f G soft pos mass i

/-- The acceleration row for body `i` produced by the multiprocessing CPU
backend (simulator_cpu.py `update`, lines 16-22): each pool task evaluates
the helper for one `i` and owns output slot `accelerations[i]`, which
receives the summed row `np.array([np.sum(ax), np.sum(ay)])`
(cf. `calculate_acceleration` override, lines 34-36). -/
def cpuBackendAccel (f : ℚ → ℚ) (G soft : ℚ) (n : ℕ) (pos : ℕ → ℚ × ℚ)
    (mass : ℕ → ℚ) (i : ℕ) : ℚ × ℚ :=
  (∑ j ∈ Finset.range n, (calculate_acceleration_helper f pos mass G soft i).1 j,
   ∑ j ∈ Finset.range n, (calculate_acceleration_helper f pos mass G soft i).2 j)

/-- The acceleration for body `i` produced by the GPU backend
(simulator_gpu.py `update`, lines 21-24): `ax, ay` from the helper, then
`accelerations[i, 0] += xp.sum(ax)` and `accelerations[i, 1] += xp.sum(ay)`
on the zeroed buffer. -/
def gpuBackendAccel (f : ℚ → ℚ) (G soft : ℚ) (n : ℕ) (pos : ℕ → ℚ × ℚ)
    (mass : ℕ → ℚ) (i : ℕ) : ℚ × ℚ :=
  (∑ j ∈ Finset.range n, (calculate_acceleration_helper f pos mass G soft i).1 j,
   ∑ j ∈ Finset.range n, (calculate_acceleration_helper f pos mass G soft i).2 j)

/-- Kinetic energy `0.5 * Σ m_i * |v_i|²` as in `calculate_energy`. -/
def kineticEnergy (n : ℕ) (vel : ℕ → ℚ × ℚ) (mass : ℕ → ℚ) : ℚ :=
  1 / 2 * ∑ i ∈ Finset.range n, mass i * ((vel i).1 ^ 2 + (vel i).2 ^ 2)

/-- Potential energy as accumulated by `calculate_energy`:
starting from `0`, for each pair `i < j` subtract
`G * m_i * m_j / sqrt(dx**2 + dy**2 + softening**2)`; `sq` abstracts `sqrt`.
(The code forms `dx = x_i - x_j`; only its square enters `dsq`.) -/
def potentialEnergy (sq : ℚ → ℚ) (G soft : ℚ) (n : ℕ) (pos : ℕ → ℚ × ℚ)
    (mass : ℕ → ℚ) : ℚ :=
  -∑ i ∈ Finset.range n, ∑ j ∈ Finset.Ico (i + 1) n,
      G * mass i * mass j / sq (dsq soft (pos i) (pos j))

/-- The engine state: the fields of `NBodySimulation` (n_body_simulator.py).
Per-body data is modelled as functions from the body index; only indices
below `num_bodies` are meaningful (the numpy arrays have exactly that
length). -/
structure Sim where
  num_bodies : ℕ
  positions : ℕ → ℚ × ℚ
  velocities : ℕ → ℚ × ℚ
  masses : ℕ → ℚ
  colors : ℕ → ℤ × ℤ × ℤ
  trails : ℕ → List (ℚ × ℚ)
  G : ℚ
  dt : ℚ
  softening : ℚ
  boundary : ℚ
  max_trail_length : ℕ
  accelerations : ℕ → ℚ × ℚ
  kinetic_energy : ℚ
  potential_energy : ℚ

/-- Python `int()` truncation toward zero on a rational. -/
def truncInt (q : ℚ) : ℤ := if q < 0 then ⌈q⌉ else ⌊q⌋

/-- The color derived from a mass in `reset` (n_body_simulator.py lines
40-51): red-shifted channels for `mass > 5`, blue-shifted otherwise. -/
def colorOf (m : ℚ) : ℤ × ℤ × ℤ :=
  if 5 < m then
    (min 255 (truncInt (200 + m * (5 / 2))),
     max 0 (truncInt (255 - m * 10)),
     max 0 (truncInt (100 - m * 5)))
  else
    (truncInt (100 + m * 20),
     truncInt (100 + m * 20),
     min 255 (truncInt (150 + m * 20)))

/-- The random draws consumed by one `reset` call: positions, velocities,
base masses, and for each of the `min(3, N)` boost rounds an index
(`randint(0, N)`) and a heavy mass (`uniform(10, 20)`). -/
structure ResetDraws where
  pos : ℕ → ℚ × ℚ
  vel : ℕ → ℚ × ℚ
  baseMass : ℕ → ℚ
  boostIdx : ℕ → ℕ
  boostMass : ℕ → ℚ

/-- The boost loop of `reset`: `for i in range(min(3, num_bodies)):
base_masses[randint(0, num_bodies)] = uniform(10, 20)`. -/
def applyBoosts (n : ℕ) (base : ℕ → ℚ) (bIdx : ℕ → ℕ) (bMass : ℕ → ℚ) : ℕ → ℚ :=
  (List.range (min 3 n)).foldl (fun m k => Function.update m (bIdx k) (bMass k)) base

/-- `NBodySimulation.reset(num_bodies)` (n_body_simulator.py lines 20-62):
optionally replaces `num_bodies`, redraws positions/velocities/masses,
recomputes colors, clears trails, sets `max_trail_length = 50` (line 55),
zeroes the acceleration buffer and both energies.  `G`, `dt`, `softening`
and `boundary` are not touched. -/
def reset (s : Sim) (num_bodies : Option ℕ) (d : ResetDraws) : Sim :=
  let n := num_bodies.getD s.num_bodies
  let newMass := applyBoosts n d.baseMass d.boostIdx d.boostMass
  { s with
    num_bodies := n
    positions := d.pos
    velocities := d.vel
    masses := newMass
    colors := fun i => colorOf (newMass i)
    trails := fun _ => []
    max_trail_length := 50
    accelerations := fun _ => (0, 0)
    kinetic_energy := 0
    potential_energy := 0 }

/-- `NBodySimulation.update` (n_body_simulator.py lines 64-102): zero and
refill the acceleration buffer (inline vectorized loop), then
`velocities += accelerations * dt`, then `positions += velocities * dt`
(with the already-updated velocities), then append each body's new position
to its trail and `pop(0)` when the length exceeds `max_trail_length`, then
recompute both energies from the new state. -/
def update (f sq : ℚ → ℚ) (s : Sim) : Sim :=
  let acc : ℕ → ℚ × ℚ := fun i =>
    if i < s.num_bodies then
      accelOf f s.G s.softening s.num_bodies s.positions s.masses i
    else s.accelerations i
  let vel : ℕ → ℚ × ℚ := fun i =>
    if i < s.num_bodies then
      ((s.velocities i).1 + (acc i).1 * s.dt, (s.velocities i).2 + (acc i).2 * s.dt)
    else s.velocities i
  let pos : ℕ → ℚ × ℚ := fun i =>
    if i < s.num_bodies then
      ((s.positions i).1 + (vel i).1 * s.dt, (s.positions i).2 + (vel i).2 * s.dt)
    else s.positions i
  let newTrails : ℕ → List (ℚ × ℚ) := fun i =>
    if i < s.num_bodies then
      let t := s.trails i ++ [pos i]
      if s.max_trail_length < t.length then t.tail else t
    else s.trails i
  { s with
    positions := pos
    velocities := vel
    accelerations := acc
    trails := newTrails
    kinetic_energy := kineticEnergy s.num_bodies vel s.masses
    potential_energy := potentialEnergy sq s.G s.softening s.num_bodies pos s.masses }

/-- One axis of the bounce branch of `apply_boundary_conditions`
(n_body_simulator.py lines 121-142).  The two masks (`> boundary/2`,
`< -boundary/2`) are computed from the pre-call coordinate and then the two
reflect-and-damp updates are applied in sequence, mirroring the numpy code. -/
def bounceAxis (b x v : ℚ) : ℚ × ℚ :=
  let p1 := if b / 2 < x then b - x else x
  let v1 := if b / 2 < x then v * (-(9 / 10)) else v
  let p2 := if x < -(b / 2) then -b - p1 else p1
  let v2 := if x < -(b / 2) then v1 * (-(9 / 10)) else v1
  (p2, v2)

/-- `apply_boundary_conditions("bounce")`: both axes treated independently
(the y masks are computed after the x updates, which never touch y). -/
def applyBounce (s : Sim) : Sim :=
  { s with
    positions := fun i =>
      if i < s.num_bodies then
        ((bounceAxis s.boundary (s.positions i).1 (s.velocities i).1).1,
         (bounceAxis s.boundary (s.positions i).2 (s.velocities i).2).1)
      else s.positions i
    velocities := fun i =>
      if i < s.num_bodies then
        ((bounceAxis s.boundary (s.positions i).1 (s.velocities i).1).2,
         (bounceAxis s.boundary (s.positions i).2 (s.velocities i).2).2)
      else s.velocities i }

/-- The `too_far` mask of the open branch:
`sqrt(x**2 + y**2) > boundary * 2`, stated on squares (for `boundary ≥ 0`
it is equivalent to the code's square-root comparison). -/
def tooFar (b : ℚ) (p : ℚ × ℚ) : Prop :=
  (2 * b) ^ 2 < p.1 ^ 2 + p.2 ^ 2

instance (b : ℚ) (p : ℚ × ℚ) : Decidable (tooFar b p) := by
  unfold tooFar; infer_instance

/-- The random draws consumed by `apply_boundary_conditions("open")` for the
body at each index: the cosine and sine of `uniform(0, 2π)`, and the two
independent `uniform(0.1, 0.5)` magnitude draws for the x and y velocity
components (lines 161-162 draw twice). -/
structure OpenDraws where
  cosv : ℕ → ℚ
  sinv : ℕ → ℚ
  mag1 : ℕ → ℚ
  mag2 : ℕ → ℚ

/-- `apply_boundary_conditions("open")` (n_body_simulator.py lines 149-165):
bodies beyond distance `2 * boundary` from the origin are placed on the
circle of radius `boundary / 2 * 0.9`, given velocity components
`-cos(angle) * uniform(0.1, 0.5)` and `-sin(angle) * uniform(0.1, 0.5)`
(independent draws), and have their trail cleared. -/
def applyOpen (s : Sim) (d : OpenDraws) : Sim :=
  let radius := s.boundary / 2 * (9 / 10)
  { s with
    positions := fun i =>
      if i < s.num_bodies ∧ tooFar s.boundary (s.positions i) then
        (d.cosv i * radius, d.sinv i * radius)
      else s.positions i
    velocities := fun i =>
      if i < s.num_bodies ∧ tooFar s.boundary (s.positions i) then
        (-(d.cosv i) * d.mag1 i, -(d.sinv i) * d.mag2 i)
      else s.velocities i
    trails := fun i =>
      if i < s.num_bodies ∧ tooFar s.boundary (s.positions i) then []
      else s.trails i }

/-- The while-loop trim of `MainWindow.update_trail_length`
(n_body_simulator.py lines 558-560): pop from the front while the length
exceeds the cap, i.e. keep only the last `v` entries. -/
def trimTrail (v : ℕ) (t : List (ℚ × ℚ)) : List (ℚ × ℚ) :=
  t.drop (t.length - v)

/-- `MainWindow.update_trail_length(value)` (n_body_simulator.py lines
553-560): set `max_trail_length` and eagerly trim every existing trail. -/
def update_trail_length (v : ℕ) (s : Sim) : Sim :=
  { s with
    max_trail_length := v
    trails := fun i => if i < s.num_bodies then trimTrail v (s.trails i) else s.trails i }

/-- Total momentum `Σ m_i * v_i`, componentwise. -/
def totalMomentum (s : Sim) : ℚ × ℚ :=
  (∑ i ∈ Finset.range s.num_bodies, s.masses i * (s.velocities i).1,
   ∑ i ∈ Finset.range s.num_bodies, s.masses i * (s.velocities i).2)

/-- Mass-weighted position sum `Σ m_i * r_i`, componentwise. -/
def comNum (s : Sim) : ℚ × ℚ :=
  (∑ i ∈ Finset.range s.num_bodies, s.masses i * (s.positions i).1,
   ∑ i ∈ Finset.range s.num_bodies, s.masses i * (s.positions i).2)

/-- Total mass `Σ m_i`. -/
def totalMass (s : Sim) : ℚ :=
  ∑ i ∈ Finset.range s.num_bodies, s.masses i

/-- Center of mass `(Σ m_i * r_i) / (Σ m_i)`, componentwise. -/
def com (s : Sim) : ℚ × ℚ :=
  ((comNum s).1 / totalMass s, (comNum s).2 / totalMass s)

/-- The spec's words for the open mode: a velocity `v` at position `p` is
directed toward the origin when it is collinear with `p` and points
inward (non-positive radial component). -/
def towardOrigin (p v : ℚ × ℚ) : Prop :=
  v.1 * p.2 = v.2 * p.1 ∧ v.1 * p.1 + v.2 * p.2 ≤ 0

instance (p v : ℚ × ℚ) : Decidable (towardOrigin p v) := by
  unfold towardOrigin; infer_instance

/-- C1: for every body `i`, the acceleration computed by the force backend
equals `G * Σ_{j≠i} m_j * (r_j - r_i) / (|r_j - r_i|² + softening²)^1.5`
(with the kernel `f` interpreting `x ↦ x^(-1.5)`), and the self-interaction
entry `inv_r3[i]` is exactly zero — for all positions, masses, `G`,
`softening` and any kernel. -/
theorem C1_accel_matches_spec_formula (f : ℚ → ℚ) (G soft : ℚ) (n : ℕ)
    (pos : ℕ → ℚ × ℚ) (mass : ℕ → ℚ) (i : ℕ) :
    accelOf f G soft n pos mass i = specAccelFormula f G soft n pos mass i
      ∧ inv_r3val f soft pos i i = 0 := by
  constructor
  · unfold accelOf specAccelFormula
    exact Prod.ext
      (accel_component_eq f G soft n pos mass i Prod.fst)
      (accel_component_eq f G soft n pos mass i Prod.snd)
  · exact inv_r3val_self f soft pos i

/-- C9: the multiprocessing CPU backend, the GPU backend and the standalone
engine's inline vectorized loop produce exactly the same acceleration for
every body, for all positions, masses, `G`, `softening` and any kernel. -/
theorem C9_backend_equivalence (f : ℚ → ℚ) (G soft : ℚ) (n : ℕ)
    (pos : ℕ → ℚ × ℚ) (mass : ℕ → ℚ) (i : ℕ) :
    cpuBackendAccel f G soft n pos mass i = gpuBackendAccel f G soft n pos mass i
      ∧ gpuBackendAccel f G soft n pos mass i = accelOf f G soft n pos mass i := by
  refine ⟨rfl, ?_⟩
  unfold gpuBackendAccel accelOf calculate_acceleration_helper calculate_acceleration
  rfl

/-- C3 counterexample: `reset` does not leave `max_trail_length` unchanged —
with the cap previously lowered to 7, a `reset` call restores it to 50
(n_body_simulator.py line 55). -/
theorem C3_counterexample_max_trail_length :
    (reset
      { num_bodies := 1, positions := fun _ => (0, 0), velocities := fun _ => (0, 0)
        masses := fun _ => 1, colors := fun _ => (0, 0, 0), trails := fun _ => []
        G := 667 / 100, dt := 1 / 100, softening := 1 / 10, boundary := 200
        max_trail_length := 7, accelerations := fun _ => (0, 0)
        kinetic_energy := 0, potential_energy := 0 }
      none
      ⟨fun _ => (0, 0), fun _ => (0, 0), fun _ => 1, fun _ => 0, fun _ => 15⟩).max_trail_length
    ≠ 7 := by
  decide

/-- C3 (amended): `reset(N)` reinitializes positions, velocities, masses,
colors, trails, accelerations and energies and leaves `G`, `dt`,
`softening` and `boundary` unchanged for every state, every `N` and every
random draw — but it resets `max_trail_length` to 50 rather than
preserving it. -/
theorem C3_reset_frame (s : Sim) (N : Option ℕ) (d : ResetDraws) :
    (reset s N d).G = s.G
      ∧ (reset s N d).dt = s.dt
      ∧ (reset s N d).softening = s.softening
      ∧ (reset s N d).boundary = s.boundary
      ∧ (reset s N d).max_trail_length = 50
      ∧ (reset s N d).num_bodies = N.getD s.num_bodies
      ∧ (reset s N d).positions = d.pos
      ∧ (reset s N d).velocities = d.vel
      ∧ (reset s N d).masses
          = applyBoosts (N.getD s.num_bodies) d.baseMass d.boostIdx d.boostMass
      ∧ (reset s N d).colors = (fun i => colorOf ((reset s N d).masses i))
      ∧ (reset s N d).trails = (fun _ => [])
      ∧ (reset s N d).accelerations = (fun _ => (0, 0))
      ∧ (reset s N d).kinetic_energy = 0
      ∧ (reset s N d).potential_energy = 0 := by
  refine ⟨rfl, rfl, rfl, rfl, rfl, rfl, rfl, rfl, rfl, rfl, rfl, rfl, rfl, rfl⟩

/-- C2: one step is semi-implicit Euler — for every body `i`, the new
velocity is `v_i + a_i * dt` and the new position is
`p_i + (new velocity) * dt`, the position update reading the
already-updated velocity. -/
theorem C2_semi_implicit_euler (f sq : ℚ → ℚ) (s : Sim) (i : ℕ)
    (hi : i < s.num_bodies) :
    (update f sq s).velocities i
        = ((s.velocities i).1
            + (accelOf f s.G s.softening s.num_bodies s.positions s.masses i).1 * s.dt,
           (s.velocities i).2
            + (accelOf f s.G s.softening s.num_bodies s.positions s.masses i).2 * s.dt)
      ∧ (update f sq s).positions i
        = ((s.positions i).1 + ((update f sq s).velocities i).1 * s.dt,
           (s.positions i).2 + ((update f sq s).velocities i).2 * s.dt) := by
  constructor
  · simp only [update, if_pos hi]
  · simp only [update, if_pos hi]

lemma bounceAxis_of_high (b x v : ℚ) (hb : 0 < b) (hx : b / 2 < x) :
    bounceAxis b x v = (b - x, v * (-(9 / 10))) := by
  have h2 : ¬x < -(b / 2) := by linarith
  simp only [bounceAxis, if_pos hx, if_neg h2]

lemma bounceAxis_of_low (b x v : ℚ) (hb : 0 < b) (hx : x < -(b / 2)) :
    bounceAxis b x v = (-b - x, v * (-(9 / 10))) := by
  have h1 : ¬b / 2 < x := by linarith
  simp only [bounceAxis, if_neg h1, if_pos hx]

lemma bounceAxis_of_inside (b x v : ℚ) (h1 : ¬b / 2 < x) (h2 : ¬x < -(b / 2)) :
    bounceAxis b x v = (x, v) := by
  simp only [bounceAxis, if_neg h1, if_neg h2]

lemma applyBounce_positions (s : Sim) (i : ℕ) (hi : i < s.num_bodies) :
    (applyBounce s).positions i
      = ((bounceAxis s.boundary (s.positions i).1 (s.velocities i).1).1,
         (bounceAxis s.boundary (s.positions i).2 (s.velocities i).2).1) := by
  simp only [applyBounce, if_pos hi]

lemma applyBounce_velocities (s : Sim) (i : ℕ) (hi : i < s.num_bodies) :
    (applyBounce s).velocities i
      = ((bounceAxis s.boundary (s.positions i).1 (s.velocities i).1).2,
         (bounceAxis s.boundary (s.positions i).2 (s.velocities i).2).2) := by
  simp only [applyBounce, if_pos hi]

/-- C5: under bounce mode, each axis of each body is treated independently:
a coordinate above `boundary/2` becomes `boundary - position` with that
axis's velocity negated and damped by 0.9; a coordinate below `-boundary/2`
becomes `-boundary - position` with the same velocity treatment; an axis
strictly inside `[-boundary/2, boundary/2]` is untouched; and a body can
bounce on both axes in the same call. -/
theorem C5_bounce_mode (s : Sim) (i : ℕ) (hb : 0 < s.boundary)
    (hi : i < s.num_bodies) :
    (s.boundary / 2 < (s.positions i).1 →
        ((applyBounce s).positions i).1 = s.boundary - (s.positions i).1
        ∧ ((applyBounce s).velocities i).1 = (s.velocities i).1 * (-(9 / 10)))
    ∧ ((s.positions i).1 < -(s.boundary / 2) →
        ((applyBounce s).positions i).1 = -s.boundary - (s.positions i).1
        ∧ ((applyBounce s).velocities i).1 = (s.velocities i).1 * (-(9 / 10)))
    ∧ (-(s.boundary / 2) < (s.positions i).1 → (s.positions i).1 < s.boundary / 2 →
        ((applyBounce s).positions i).1 = (s.positions i).1
        ∧ ((applyBounce s).velocities i).1 = (s.velocities i).1)
    ∧ (s.boundary / 2 < (s.positions i).2 →
        ((applyBounce s).positions i).2 = s.boundary - (s.positions i).2
        ∧ ((applyBounce s).velocities i).2 = (s.velocities i).2 * (-(9 / 10)))
    ∧ ((s.positions i).2 < -(s.boundary / 2) →
        ((applyBounce s).positions i).2 = -s.boundary - (s.positions i).2
        ∧ ((applyBounce s).velocities i).2 = (s.velocities i).2 * (-(9 / 10)))
    ∧ (-(s.boundary / 2) < (s.positions i).2 → (s.positions i).2 < s.boundary / 2 →
        ((applyBounce s).positions i).2 = (s.positions i).2
        ∧ ((applyBounce s).velocities i).2 = (s.velocities i).2)
    ∧ (s.boundary / 2 < (s.positions i).1 → s.boundary / 2 < (s.positions i).2 →
        (applyBounce s).positions i
            = (s.boundary - (s.positions i).1, s.boundary - (s.positions i).2)
        ∧ (applyBounce s).velocities i
            = ((s.velocities i).1 * (-(9 / 10)), (s.velocities i).2 * (-(9 / 10)))) := by
  rw [applyBounce_positions s i hi, applyBounce_velocities s i hi]
  refine ⟨fun h => ?_, fun h => ?_, fun h1 h2 => ?_, fun h => ?_, fun h => ?_,
    fun h1 h2 => ?_, fun hx hy => ?_⟩
  · rw [bounceAxis_of_high _ _ _ hb h]; exact ⟨rfl, rfl⟩
  · rw [bounceAxis_of_low _ _ _ hb h]; exact ⟨rfl, rfl⟩
  · rw [bounceAxis_of_inside s.boundary (s.positions i).1 (s.velocities i).1
      (by linarith) (by linarith)]
    exact ⟨rfl, rfl⟩
  · rw [bounceAxis_of_high _ _ _ hb h]; exact ⟨rfl, rfl⟩
  · rw [bounceAxis_of_low _ _ _ hb h]; exact ⟨rfl, rfl⟩
  · rw [bounceAxis_of_inside s.boundary (s.positions i).2 (s.velocities i).2
      (by linarith) (by linarith)]
    exact ⟨rfl, rfl⟩
  · rw [bounceAxis_of_high _ _ _ hb hx, bounceAxis_of_high _ _ _ hb hy]
    exact ⟨rfl, rfl⟩

/-- C10: one bounce application does not guarantee containment — a body
whose axis coordinate exceeds `3*boundary/2` is reflected to
`boundary - position`, which is still below `-boundary/2` and hence
outside the domain. -/
theorem C10_bounce_not_containing (s : Sim) (i : ℕ) (hb : 0 < s.boundary)
    (hi : i < s.num_bodies) (hx : 3 * s.boundary / 2 < (s.positions i).1) :
    ((applyBounce s).positions i).1 = s.boundary - (s.positions i).1
      ∧ ((applyBounce s).positions i).1 < -(s.boundary / 2) := by
  have hx' : s.boundary / 2 < (s.positions i).1 := by linarith
  rw [applyBounce_positions s i hi, bounceAxis_of_high _ _ _ hb hx']
  exact ⟨rfl, by simp only; linarith⟩

/-- A sample engine state used to instantiate hypotheses of the proved
theorems at concrete inputs. -/
def sSample : Sim where
  num_bodies := 1
  positions := fun _ => (3 / 2, 1 / 2)
  velocities := fun _ => (1, 1)
  masses := fun _ => 1
  colors := fun _ => (0, 0, 0)
  trails := fun _ => []
  G := 667 / 100
  dt := 1 / 100
  softening := 1 / 10
  boundary := 2
  max_trail_length := 50
  accelerations := fun _ => (0, 0)
  kinetic_energy := 0
  potential_energy := 0

/-- A variant of the sample state whose body overshoots the wall by more
than `boundary`. -/
def sFar : Sim :=
  { sSample with positions := fun _ => (4, 0) }

/-- C2 instantiated at a concrete one-body state. -/
theorem C2_witness :
    0 < sSample.num_bodies
      ∧ ((update (fun _ => 1) (fun _ => 1) sSample).velocities 0
          = ((sSample.velocities 0).1
              + (accelOf (fun _ => 1) sSample.G sSample.softening sSample.num_bodies
                  sSample.positions sSample.masses 0).1 * sSample.dt,
             (sSample.velocities 0).2
              + (accelOf (fun _ => 1) sSample.G sSample.softening sSample.num_bodies
                  sSample.positions sSample.masses 0).2 * sSample.dt)
        ∧ (update (fun _ => 1) (fun _ => 1) sSample).positions 0
          = ((sSample.positions 0).1
              + ((update (fun _ => 1) (fun _ => 1) sSample).velocities 0).1 * sSample.dt,
             (sSample.positions 0).2
              + ((update (fun _ => 1) (fun _ => 1) sSample).velocities 0).2 * sSample.dt)) :=
  ⟨by decide, C2_semi_implicit_euler (fun _ => 1) (fun _ => 1) sSample 0 (by decide)⟩

/-- C5 instantiated at a concrete state with the body at `(3/2, 1/2)` in a
domain of half-extent 1. -/
theorem C5_witness :
    (0 : ℚ) < sSample.boundary
      ∧ 0 < sSample.num_bodies
      ∧ ((sSample.boundary / 2 < (sSample.positions 0).1 →
            ((applyBounce sSample).positions 0).1
                = sSample.boundary - (sSample.positions 0).1
            ∧ ((applyBounce sSample).velocities 0).1
                = (sSample.velocities 0).1 * (-(9 / 10)))
        ∧ ((sSample.positions 0).1 < -(sSample.boundary / 2) →
            ((applyBounce sSample).positions 0).1
                = -sSample.boundary - (sSample.positions 0).1
            ∧ ((applyBounce sSample).velocities 0).1
                = (sSample.velocities 0).1 * (-(9 / 10)))
        ∧ (-(sSample.boundary / 2) < (sSample.positions 0).1 →
            (sSample.positions 0).1 < sSample.boundary / 2 →
            ((applyBounce sSample).positions 0).1 = (sSample.positions 0).1
            ∧ ((applyBounce sSample).velocities 0).1 = (sSample.velocities 0).1)
        ∧ (sSample.boundary / 2 < (sSample.positions 0).2 →
            ((applyBounce sSample).positions 0).2
                = sSample.boundary - (sSample.positions 0).2
            ∧ ((applyBounce sSample).velocities 0).2
                = (sSample.velocities 0).2 * (-(9 / 10)))
        ∧ ((sSample.positions 0).2 < -(sSample.boundary / 2) →
            ((applyBounce sSample).positions 0).2
                = -sSample.boundary - (sSample.positions 0).2
            ∧ ((applyBounce sSample).velocities 0).2
                = (sSample.velocities 0).2 * (-(9 / 10)))
        ∧ (-(sSample.boundary / 2) < (sSample.positions 0).2 →
            (sSample.positions 0).2 < sSample.boundary / 2 →
            ((applyBounce sSample).positions 0).2 = (sSample.positions 0).2
            ∧ ((applyBounce sSample).velocities 0).2 = (sSample.velocities 0).2)
        ∧ (sSample.boundary / 2 < (sSample.positions 0).1 →
            sSample.boundary / 2 < (sSample.positions 0).2 →
            (applyBounce sSample).positions 0
                = (sSample.boundary - (sSample.positions 0).1,
                   sSample.boundary - (sSample.positions 0).2)
            ∧ (applyBounce sSample).velocities 0
                = ((sSample.velocities 0).1 * (-(9 / 10)),
                   (sSample.velocities 0).2 * (-(9 / 10))))) :=
  ⟨by decide, by decide, C5_bounce_mode sSample 0 (by decide) (by decide)⟩

/-- C10 instantiated at a concrete state: boundary 2, body at `x = 4`;
the reflected coordinate is `-2 < -1`. -/
theorem C10_witness :
    (0 : ℚ) < sFar.boundary
      ∧ 0 < sFar.num_bodies
      ∧ 3 * sFar.boundary / 2 < (sFar.positions 0).1
      ∧ ((applyBounce sFar).positions 0).1 = sFar.boundary - (sFar.positions 0).1
      ∧ ((applyBounce sFar).positions 0).1 < -(sFar.boundary / 2) :=
  ⟨by norm_num [sFar, sSample], by decide, by norm_num [sFar, sSample],
    C10_bounce_not_containing sFar 0 (by norm_num [sFar, sSample]) (by decide)
      (by norm_num [sFar, sSample])⟩

/-- C4: the invariant `trail[i].length ≤ maxTrailLength` is preserved by a
step (which leaves the cap unchanged and grows the trail by at most one net
entry): a step appends the new position and, exactly when the cap is then
exceeded, removes one entry, the oldest; the cap-lowering setter trims
eagerly, and `reset` reestablishes the invariant. -/
theorem C4_trail_invariant (f sq : ℚ → ℚ) (s : Sim) (i v : ℕ) (N : Option ℕ)
    (d : ResetDraws) (hlen : (s.trails i).length ≤ s.max_trail_length) :
    (update f sq s).max_trail_length = s.max_trail_length
    ∧ ((update f sq s).trails i).length ≤ s.max_trail_length
    ∧ ((update f sq s).trails i).length ≤ (s.trails i).length + 1
    ∧ (i < s.num_bodies → s.max_trail_length < (s.trails i).length + 1 →
        (update f sq s).trails i = (s.trails i ++ [(update f sq s).positions i]).tail)
    ∧ (i < s.num_bodies → (s.trails i).length + 1 ≤ s.max_trail_length →
        (update f sq s).trails i = s.trails i ++ [(update f sq s).positions i])
    ∧ (i < s.num_bodies → ((update_trail_length v s).trails i).length
        ≤ (update_trail_length v s).max_trail_length)
    ∧ ((reset s N d).trails i).length ≤ (reset s N d).max_trail_length := by
  refine ⟨rfl, ?_, ?_, ?_, ?_, ?_, ?_⟩
  · by_cases hi : i < s.num_bodies
    · simp only [update, if_pos hi, List.length_append, List.length_singleton]
      split_ifs with h
      · rw [List.length_tail]
        simp only [List.length_append, List.length_singleton]
        omega
      · simp only [List.length_append, List.length_singleton] at h ⊢
        omega
    · simp only [update, if_neg hi]
      exact hlen
  · by_cases hi : i < s.num_bodies
    · simp only [update, if_pos hi]
      split_ifs with h
      · rw [List.length_tail]
        simp only [List.length_append, List.length_singleton]
        omega
      · simp only [List.length_append, List.length_singleton]
        omega
    · simp only [update, if_neg hi]
      omega
  · intro hi h
    simp only [update, if_pos hi]
    rw [if_pos]
    simp only [List.length_append, List.length_singleton]
    omega
  · intro hi h
    simp only [update, if_pos hi]
    rw [if_neg]
    simp only [List.length_append, List.length_singleton]
    omega
  · intro hi
    simp only [update_trail_length, if_pos hi, trimTrail, List.length_drop]
    omega
  · simp only [reset, List.length_nil]
    omega

/-- C8: for `softening > 0`, the softened squared distance — the base of
the `** (-1.5)` power in the acceleration and the argument of `sqrt` in
the potential energy — is at least `softening²` and strictly positive for
all positions (coincident bodies included), and any monotone model of the
square root is accordingly bounded below by its value at `softening²`
(which for the real root is `softening`), so no division by zero or
negative-base root occurs. -/
theorem C8_softening_bounds (pos : ℕ → ℚ × ℚ) (soft : ℚ) (i j : ℕ)
    (sq : ℚ → ℚ) (hsoft : 0 < soft)
    (hmono : ∀ a b : ℚ, 0 ≤ a → a ≤ b → sq a ≤ sq b) :
    soft ^ 2 ≤ dsq soft (pos i) (pos j)
    ∧ 0 < dsq soft (pos i) (pos j)
    ∧ sq (soft ^ 2) ≤ sq (dsq soft (pos i) (pos j)) := by
  have h1 : soft ^ 2 ≤ dsq soft (pos i) (pos j) := by
    unfold dsq
    nlinarith [sq_nonneg ((pos j).1 - (pos i).1), sq_nonneg ((pos j).2 - (pos i).2)]
  have h0 : 0 < soft ^ 2 := by positivity
  exact ⟨h1, lt_of_lt_of_le h0 h1, hmono _ _ (le_of_lt h0) h1⟩

/-- C4 instantiated at the concrete sample state (empty trail, cap 50,
new cap 3). -/
theorem C4_witness :
    (sSample.trails 0).length ≤ sSample.max_trail_length
      ∧ ((update (fun _ => 1) (fun _ => 1) sSample).max_trail_length
            = sSample.max_trail_length
        ∧ ((update (fun _ => 1) (fun _ => 1) sSample).trails 0).length
            ≤ sSample.max_trail_length
        ∧ ((update (fun _ => 1) (fun _ => 1) sSample).trails 0).length
            ≤ (sSample.trails 0).length + 1
        ∧ (0 < sSample.num_bodies →
            sSample.max_trail_length < (sSample.trails 0).length + 1 →
            (update (fun _ => 1) (fun _ => 1) sSample).trails 0
              = (sSample.trails 0
                  ++ [(update (fun _ => 1) (fun _ => 1) sSample).positions 0]).tail)
        ∧ (0 < sSample.num_bodies →
            (sSample.trails 0).length + 1 ≤ sSample.max_trail_length →
            (update (fun _ => 1) (fun _ => 1) sSample).trails 0
              = sSample.trails 0
                  ++ [(update (fun _ => 1) (fun _ => 1) sSample).positions 0])
        ∧ (0 < sSample.num_bodies →
            ((update_trail_length 3 sSample).trails 0).length
              ≤ (update_trail_length 3 sSample).max_trail_length)
        ∧ ((reset sSample (some 2)
              ⟨fun _ => (0, 0), fun _ => (0, 0), fun _ => 1, fun _ => 0,
                fun _ => 15⟩).trails 0).length
            ≤ (reset sSample (some 2)
              ⟨fun _ => (0, 0), fun _ => (0, 0), fun _ => 1, fun _ => 0,
                fun _ => 15⟩).max_trail_length) :=
  ⟨by decide,
    C4_trail_invariant (fun _ => 1) (fun _ => 1) sSample 0 3 (some 2)
      ⟨fun _ => (0, 0), fun _ => (0, 0), fun _ => 1, fun _ => 0, fun _ => 15⟩
      (by decide)⟩

/-- C8 instantiated at coincident bodies, `softening = 1` and the identity
as the monotone square-root model. -/
theorem C8_witness :
    (0 : ℚ) < 1
      ∧ (∀ a b : ℚ, 0 ≤ a → a ≤ b → id a ≤ id b)
      ∧ ((1 : ℚ) ^ 2 ≤ dsq 1 ((fun _ => ((0 : ℚ), (0 : ℚ))) 0) ((fun _ => ((0 : ℚ), (0 : ℚ))) 1)
        ∧ 0 < dsq 1 ((fun _ => ((0 : ℚ), (0 : ℚ))) 0) ((fun _ => ((0 : ℚ), (0 : ℚ))) 1)
        ∧ id ((1 : ℚ) ^ 2)
            ≤ id (dsq 1 ((fun _ => ((0 : ℚ), (0 : ℚ))) 0) ((fun _ => ((0 : ℚ), (0 : ℚ))) 1))) :=
  ⟨by norm_num, fun _ _ _ h => h,
    C8_softening_bounds (fun _ => (0, 0)) 1 0 1 id (by norm_num) (fun _ _ _ h => h)⟩

lemma accelOf_fst (f : ℚ → ℚ) (G soft : ℚ) (n : ℕ) (pos : ℕ → ℚ × ℚ)
    (mass : ℕ → ℚ) (i : ℕ) :
    (accelOf f G soft n pos mass i).1
      = ∑ j ∈ Finset.range n, G * ((pos j).1 - (pos i).1) * inv_r3val f soft pos i j * mass j :=
  rfl

lemma accelOf_snd (f : ℚ → ℚ) (G soft : ℚ) (n : ℕ) (pos : ℕ → ℚ × ℚ)
    (mass : ℕ → ℚ) (i : ℕ) :
    (accelOf f G soft n pos mass i).2
      = ∑ j ∈ Finset.range n, G * ((pos j).2 - (pos i).2) * inv_r3val f soft pos i j * mass j :=
  rfl

/-- A double sum of a pointwise antisymmetric family vanishes. -/
lemma antisym_double_sum (n : ℕ) (g : ℕ → ℕ → ℚ) (h : ∀ i j, g i j = -g j i) :
    ∑ i ∈ Finset.range n, ∑ j ∈ Finset.range n, g i j = 0 := by
  have h2 : ∑ i ∈ Finset.range n, ∑ j ∈ Finset.range n, g i j
      = -∑ i ∈ Finset.range n, ∑ j ∈ Finset.range n, g i j := by
    nth_rewrite 1 [Finset.sum_comm]
    calc ∑ j ∈ Finset.range n, ∑ i ∈ Finset.range n, g i j
        = ∑ j ∈ Finset.range n, ∑ i ∈ Finset.range n, -g j i :=
          Finset.sum_congr rfl fun j _ => Finset.sum_congr rfl fun i _ => h i j
      _ = -∑ j ∈ Finset.range n, ∑ i ∈ Finset.range n, g j i := by
          simp [Finset.sum_neg_distrib]
  linarith

/-- Newton's third law for the softened force: the pairwise terms
`m_i * a_ij` are antisymmetric in `(i, j)` (the softened distance is
symmetric and the displacement antisymmetric), so the mass-weighted sum of
accelerations vanishes, componentwise. -/
lemma sum_mass_accel (f : ℚ → ℚ) (G soft : ℚ) (n : ℕ) (pos : ℕ → ℚ × ℚ)
    (mass : ℕ → ℚ) (c : ℚ × ℚ → ℚ) :
    ∑ i ∈ Finset.range n, mass i *
        (∑ j ∈ Finset.range n,
          G * (c (pos j) - c (pos i)) * inv_r3val f soft pos i j * mass j) = 0 := by
  have hrw : ∑ i ∈ Finset.range n, mass i *
        (∑ j ∈ Finset.range n,
          G * (c (pos j) - c (pos i)) * inv_r3val f soft pos i j * mass j)
      = ∑ i ∈ Finset.range n, ∑ j ∈ Finset.range n,
          mass i * (G * (c (pos j) - c (pos i)) * inv_r3val f soft pos i j * mass j) :=
    Finset.sum_congr rfl fun i _ => Finset.mul_sum _ _ _
  rw [hrw]
  refine antisym_double_sum n _ ?_
  intro i j
  by_cases hij : i = j
  · subst hij
    simp [inv_r3val_self]
  · simp only [inv_r3val]
    rw [if_neg (Ne.symm hij), if_neg hij, dsq_comm soft (pos j) (pos i)]
    ring

lemma update_velocities_of_lt (f sq : ℚ → ℚ) (s : Sim) (i : ℕ)
    (hi : i < s.num_bodies) :
    (update f sq s).velocities i
      = ((s.velocities i).1
          + (accelOf f s.G s.softening s.num_bodies s.positions s.masses i).1 * s.dt,
         (s.velocities i).2
          + (accelOf f s.G s.softening s.num_bodies s.positions s.masses i).2 * s.dt) := by
  simp only [update, if_pos hi]

lemma update_positions_of_lt (f sq : ℚ → ℚ) (s : Sim) (i : ℕ)
    (hi : i < s.num_bodies) :
    (update f sq s).positions i
      = ((s.positions i).1 + ((update f sq s).velocities i).1 * s.dt,
         (s.positions i).2 + ((update f sq s).velocities i).2 * s.dt) := by
  simp only [update, if_pos hi]

lemma update_masses (f sq : ℚ → ℚ) (s : Sim) : (update f sq s).masses = s.masses :=
  rfl

lemma update_num_bodies (f sq : ℚ → ℚ) (s : Sim) :
    (update f sq s).num_bodies = s.num_bodies :=
  rfl

/-- One step preserves the total momentum `Σ m_i * v_i`. -/
lemma update_totalMomentum (f sq : ℚ → ℚ) (s : Sim) :
    totalMomentum (update f sq s) = totalMomentum s := by
  have hz1 : ∑ i ∈ Finset.range s.num_bodies, s.masses i *
      (accelOf f s.G s.softening s.num_bodies s.positions s.masses i).1 = 0 := by
    simp only [accelOf_fst]
    exact sum_mass_accel f s.G s.softening s.num_bodies s.positions s.masses Prod.fst
  have hz2 : ∑ i ∈ Finset.range s.num_bodies, s.masses i *
      (accelOf f s.G s.softening s.num_bodies s.positions s.masses i).2 = 0 := by
    simp only [accelOf_snd]
    exact sum_mass_accel f s.G s.softening s.num_bodies s.positions s.masses Prod.snd
  unfold totalMomentum
  rw [update_num_bodies, update_masses]
  refine Prod.ext ?_ ?_
  · calc ∑ i ∈ Finset.range s.num_bodies, s.masses i * ((update f sq s).velocities i).1
        = ∑ i ∈ Finset.range s.num_bodies,
            (s.masses i * (s.velocities i).1
              + s.masses i
                * (accelOf f s.G s.softening s.num_bodies s.positions s.masses i).1
                * s.dt) := by
          refine Finset.sum_congr rfl fun i hi => ?_
          rw [update_velocities_of_lt f sq s i (Finset.mem_range.mp hi)]
          ring
      _ = (∑ i ∈ Finset.range s.num_bodies, s.masses i * (s.velocities i).1)
          + (∑ i ∈ Finset.range s.num_bodies, s.masses i
              * (accelOf f s.G s.softening s.num_bodies s.positions s.masses i).1)
            * s.dt := by
          rw [Finset.sum_add_distrib, ← Finset.sum_mul]
      _ = ∑ i ∈ Finset.range s.num_bodies, s.masses i * (s.velocities i).1 := by
          rw [hz1, zero_mul, add_zero]
  · calc ∑ i ∈ Finset.range s.num_bodies, s.masses i * ((update f sq s).velocities i).2
        = ∑ i ∈ Finset.range s.num_bodies,
            (s.masses i * (s.velocities i).2
              + s.masses i
                * (accelOf f s.G s.softening s.num_bodies s.positions s.masses i).2
                * s.dt) := by
          refine Finset.sum_congr rfl fun i hi => ?_
          rw [update_velocities_of_lt f sq s i (Finset.mem_range.mp hi)]
          ring
      _ = (∑ i ∈ Finset.range s.num_bodies, s.masses i * (s.velocities i).2)
          + (∑ i ∈ Finset.range s.num_bodies, s.masses i
              * (accelOf f s.G s.softening s.num_bodies s.positions s.masses i).2)
            * s.dt := by
          rw [Finset.sum_add_distrib, ← Finset.sum_mul]
      _ = ∑ i ∈ Finset.range s.num_bodies, s.masses i * (s.velocities i).2 := by
          rw [hz2, zero_mul, add_zero]

/-- One step of a zero-total-momentum system preserves the mass-weighted
position sum. -/
lemma update_comNum (f sq : ℚ → ℚ) (s : Sim) (hmom : totalMomentum s = (0, 0)) :
    comNum (update f sq s) = comNum s := by
  have hmom' : totalMomentum (update f sq s) = (0, 0) :=
    (update_totalMomentum f sq s).trans hmom
  have hv1 : ∑ i ∈ Finset.range s.num_bodies,
      s.masses i * ((update f sq s).velocities i).1 = 0 := by
    have := congrArg Prod.fst hmom'
    simpa [totalMomentum, update_num_bodies, update_masses] using this
  have hv2 : ∑ i ∈ Finset.range s.num_bodies,
      s.masses i * ((update f sq s).velocities i).2 = 0 := by
    have := congrArg Prod.snd hmom'
    simpa [totalMomentum, update_num_bodies, update_masses] using this
  unfold comNum
  rw [update_num_bodies, update_masses]
  refine Prod.ext ?_ ?_
  · calc ∑ i ∈ Finset.range s.num_bodies, s.masses i * ((update f sq s).positions i).1
        = ∑ i ∈ Finset.range s.num_bodies,
            (s.masses i * (s.positions i).1
              + s.masses i * ((update f sq s).velocities i).1 * s.dt) := by
          refine Finset.sum_congr rfl fun i hi => ?_
          rw [update_positions_of_lt f sq s i (Finset.mem_range.mp hi)]
          ring
      _ = (∑ i ∈ Finset.range s.num_bodies, s.masses i * (s.positions i).1)
          + (∑ i ∈ Finset.range s.num_bodies,
              s.masses i * ((update f sq s).velocities i).1) * s.dt := by
          rw [Finset.sum_add_distrib, ← Finset.sum_mul]
      _ = ∑ i ∈ Finset.range s.num_bodies, s.masses i * (s.positions i).1 := by
          rw [hv1, zero_mul, add_zero]
  · calc ∑ i ∈ Finset.range s.num_bodies, s.masses i * ((update f sq s).positions i).2
        = ∑ i ∈ Finset.range s.num_bodies,
            (s.masses i * (s.positions i).2
              + s.masses i * ((update f sq s).velocities i).2 * s.dt) := by
          refine Finset.sum_congr rfl fun i hi => ?_
          rw [update_positions_of_lt f sq s i (Finset.mem_range.mp hi)]
          ring
      _ = (∑ i ∈ Finset.range s.num_bodies, s.masses i * (s.positions i).2)
          + (∑ i ∈ Finset.range s.num_bodies,
              s.masses i * ((update f sq s).velocities i).2) * s.dt := by
          rw [Finset.sum_add_distrib, ← Finset.sum_mul]
      _ = ∑ i ∈ Finset.range s.num_bodies, s.masses i * (s.positions i).2 := by
          rw [hv2, zero_mul, add_zero]

/-- C7: for a 2-body system with equal masses and equal-and-opposite initial
velocities, the center of mass is stationary across any number of steps:
one step preserves the total momentum `Σ m_i * v_i` for every state
(Newton's-third-law consistency of the softened force), the given system
has zero total momentum, and its center of mass after `k` steps equals the
initial one — for any kernels, exactly, in rational arithmetic. -/
theorem C7_com_stationary (f sq : ℚ → ℚ) (s : Sim) (k : ℕ)
    (hn : s.num_bodies = 2) (hm : s.masses 0 = s.masses 1)
    (hv : s.velocities 1 = (-(s.velocities 0).1, -(s.velocities 0).2)) :
    (∀ t : Sim, totalMomentum (update f sq t) = totalMomentum t)
    ∧ totalMomentum s = (0, 0)
    ∧ com ((update f sq)^[k] s) = com s := by
  have hmom0 : totalMomentum s = (0, 0) := by
    unfold totalMomentum
    rw [hn]
    rw [Finset.sum_range_succ, Finset.sum_range_succ, Finset.sum_range_zero,
        Finset.sum_range_succ, Finset.sum_range_succ, Finset.sum_range_zero, hv, ← hm]
    refine Prod.ext ?_ ?_ <;> simp
  have hiter : ∀ j : ℕ,
      comNum ((update f sq)^[j] s) = comNum s
      ∧ totalMomentum ((update f sq)^[j] s) = (0, 0)
      ∧ ((update f sq)^[j] s).masses = s.masses
      ∧ ((update f sq)^[j] s).num_bodies = s.num_bodies := by
    intro j
    induction j with
    | zero => exact ⟨rfl, hmom0, rfl, rfl⟩
    | succ j ih =>
      obtain ⟨h1, h2, h3, h4⟩ := ih
      rw [Function.iterate_succ_apply']
      exact ⟨(update_comNum f sq _ h2).trans h1,
        (update_totalMomentum f sq _).trans h2,
        (update_masses f sq _).trans h3,
        (update_num_bodies f sq _).trans h4⟩
  obtain ⟨h1, _, h3, h4⟩ := hiter k
  have hmass : totalMass ((update f sq)^[k] s) = totalMass s := by
    unfold totalMass
    rw [h4, h3]
  refine ⟨update_totalMomentum f sq, hmom0, ?_⟩
  unfold com
  rw [h1, hmass]

/-- A concrete 2-body zero-momentum state: equal unit masses, velocities
`(1, 2)` and `(-1, -2)`. -/
def sPair : Sim :=
  { sSample with
    num_bodies := 2
    masses := fun _ => 1
    positions := fun i => if i = 0 then (1, 0) else (3, 4)
    velocities := fun i => if i = 0 then (1, 2) else (-1, -2) }

/-- C7 instantiated at the concrete 2-body state, over 3 steps. -/
theorem C7_witness :
    sPair.num_bodies = 2
      ∧ sPair.masses 0 = sPair.masses 1
      ∧ sPair.velocities 1 = (-(sPair.velocities 0).1, -(sPair.velocities 0).2)
      ∧ ((∀ t : Sim, totalMomentum (update (fun _ => 1) (fun _ => 1) t) = totalMomentum t)
        ∧ totalMomentum sPair = (0, 0)
        ∧ com ((update (fun _ => 1) (fun _ => 1))^[3] sPair) = com sPair) :=
  ⟨rfl, rfl, by norm_num [sPair, sSample],
    C7_com_stationary (fun _ => 1) (fun _ => 1) sPair 3 rfl rfl
      (by norm_num [sPair, sSample])⟩

/-- A state whose single body is far outside the open-mode kill radius:
boundary 10, body at `(50, 0)` (distance 50 > 2 * 10). -/
def sOpen : Sim :=
  { sSample with boundary := 10, positions := fun _ => (50, 0) }

/-- Concrete open-mode draws: angle with cosine `3/5` and sine `4/5`, and
the two independent magnitude draws `1/10` and `1/5`. -/
def dOpen : OpenDraws where
  cosv := fun _ => 3 / 5
  sinv := fun _ => 4 / 5
  mag1 := fun _ => 1 / 10
  mag2 := fun _ => 1 / 5

/-- C6 counterexample: because the x and y velocity components take two
independent magnitude draws, the replaced body's velocity is in general not
directed toward the origin: with cosine 3/5, sine 4/5 and draws 1/10, 1/5
the new velocity `(-3/50, -4/25)` is not collinear with the new position
`(27/10, 18/5)`. -/
theorem C6_counterexample_direction :
    tooFar sOpen.boundary (sOpen.positions 0)
      ∧ ¬towardOrigin ((applyOpen sOpen dOpen).positions 0)
          ((applyOpen sOpen dOpen).velocities 0) := by
  have hfar : tooFar sOpen.boundary (sOpen.positions 0) := by
    show (2 * (10 : ℚ)) ^ 2 < (50 : ℚ) ^ 2 + (0 : ℚ) ^ 2
    norm_num
  have hc : 0 < sOpen.num_bodies ∧ tooFar sOpen.boundary (sOpen.positions 0) :=
    ⟨by decide, hfar⟩
  have hpos : (applyOpen sOpen dOpen).positions 0 = (27 / 10, 18 / 5) := by
    simp only [applyOpen, if_pos hc]
    norm_num [dOpen, sOpen, sSample]
  have hvel : (applyOpen sOpen dOpen).velocities 0 = (-(3 / 50), -(4 / 25)) := by
    simp only [applyOpen, if_pos hc]
    norm_num [dOpen]
  refine ⟨hfar, ?_⟩
  rw [hpos, hvel]
  unfold towardOrigin
  intro h
  have h1 := h.1
  norm_num at h1

set_option maxHeartbeats 1000000 in
/-- C6 (amended): under open mode, a body beyond distance `2*boundary` from
the origin is placed on the circle of radius `0.9*boundary/2` and its trail
is cleared; its new velocity has components `-cos(angle) * u1` and
`-sin(angle) * u2` with two independent draws `u1, u2 ∈ [0.1, 0.5)` — it
has strictly negative radial component (it points into the domain) and
squared magnitude in `[0.01, 0.25)`, but it is not in general collinear
with the position, i.e. not directed exactly toward the origin.  Bodies at
distance at most `2*boundary` are left entirely unchanged. -/
theorem C6_open_mode (s : Sim) (d : OpenDraws) (i : ℕ)
    (hb : 0 < s.boundary) (hi : i < s.num_bodies)
    (hcs : (d.cosv i) ^ 2 + (d.sinv i) ^ 2 = 1)
    (h1l : 1 / 10 ≤ d.mag1 i) (h1u : d.mag1 i < 1 / 2)
    (h2l : 1 / 10 ≤ d.mag2 i) (h2u : d.mag2 i < 1 / 2) :
    (tooFar s.boundary (s.positions i) →
      (applyOpen s d).positions i
          = (d.cosv i * (s.boundary / 2 * (9 / 10)),
             d.sinv i * (s.boundary / 2 * (9 / 10)))
      ∧ ((applyOpen s d).positions i).1 ^ 2 + ((applyOpen s d).positions i).2 ^ 2
          = (s.boundary / 2 * (9 / 10)) ^ 2
      ∧ (applyOpen s d).velocities i = (-(d.cosv i) * d.mag1 i, -(d.sinv i) * d.mag2 i)
      ∧ ((applyOpen s d).velocities i).1 * ((applyOpen s d).positions i).1
          + ((applyOpen s d).velocities i).2 * ((applyOpen s d).positions i).2 < 0
      ∧ (1 / 10) ^ 2
          ≤ ((applyOpen s d).velocities i).1 ^ 2 + ((applyOpen s d).velocities i).2 ^ 2
      ∧ ((applyOpen s d).velocities i).1 ^ 2 + ((applyOpen s d).velocities i).2 ^ 2
          < (1 / 2) ^ 2
      ∧ (applyOpen s d).trails i = [])
    ∧ (¬tooFar s.boundary (s.positions i) →
      (applyOpen s d).positions i = s.positions i
      ∧ (applyOpen s d).velocities i = s.velocities i
      ∧ (applyOpen s d).trails i = s.trails i) := by
  constructor
  · intro hfar
    have hc : i < s.num_bodies ∧ tooFar s.boundary (s.positions i) := ⟨hi, hfar⟩
    have hpos : (applyOpen s d).positions i
        = (d.cosv i * (s.boundary / 2 * (9 / 10)),
           d.sinv i * (s.boundary / 2 * (9 / 10))) := by
      simp only [applyOpen, if_pos hc]
    have hvel : (applyOpen s d).velocities i
        = (-(d.cosv i) * d.mag1 i, -(d.sinv i) * d.mag2 i) := by
      simp only [applyOpen, if_pos hc]
    have htrail : (applyOpen s d).trails i = [] := by
      simp only [applyOpen, if_pos hc]
    have hr : 0 < s.boundary / 2 * (9 / 10) := by linarith
    refine ⟨hpos, ?_, hvel, ?_, ?_, ?_, htrail⟩
    · rw [hpos]
      have : (d.cosv i * (s.boundary / 2 * (9 / 10))) ^ 2
            + (d.sinv i * (s.boundary / 2 * (9 / 10))) ^ 2
          = ((d.cosv i) ^ 2 + (d.sinv i) ^ 2) * (s.boundary / 2 * (9 / 10)) ^ 2 := by
        ring
      rw [this, hcs, one_mul]
    · rw [hpos, hvel]
      have hc1 : (d.cosv i) ^ 2 * (1 / 10) ≤ (d.cosv i) ^ 2 * d.mag1 i :=
        mul_le_mul_of_nonneg_left h1l (sq_nonneg _)
      have hc2 : (d.sinv i) ^ 2 * (1 / 10) ≤ (d.sinv i) ^ 2 * d.mag2 i :=
        mul_le_mul_of_nonneg_left h2l (sq_nonneg _)
      have hsum : 1 / 10 ≤ (d.cosv i) ^ 2 * d.mag1 i + (d.sinv i) ^ 2 * d.mag2 i := by
        nlinarith [hc1, hc2, hcs]
      nlinarith [mul_le_mul_of_nonneg_right hsum (le_of_lt hr)]
    · rw [hvel]
      have hq1 : (1 / 100 : ℚ) ≤ (d.mag1 i) ^ 2 := by nlinarith
      have hq2 : (1 / 100 : ℚ) ≤ (d.mag2 i) ^ 2 := by nlinarith
      have hc1 : (d.cosv i) ^ 2 * (1 / 100) ≤ (d.cosv i) ^ 2 * (d.mag1 i) ^ 2 :=
        mul_le_mul_of_nonneg_left hq1 (sq_nonneg _)
      have hc2 : (d.sinv i) ^ 2 * (1 / 100) ≤ (d.sinv i) ^ 2 * (d.mag2 i) ^ 2 :=
        mul_le_mul_of_nonneg_left hq2 (sq_nonneg _)
      nlinarith [hc1, hc2, hcs]
    · rw [hvel]
      have hq1 : (d.mag1 i) ^ 2 < 1 / 4 := by nlinarith
      have hq2 : (d.mag2 i) ^ 2 < 1 / 4 := by nlinarith
      rcases le_total (1 / 2 : ℚ) ((d.cosv i) ^ 2) with h | h
      · have hp : (0 : ℚ) < (d.cosv i) ^ 2 := by linarith
        have hs1 : (d.cosv i) ^ 2 * (d.mag1 i) ^ 2 < (d.cosv i) ^ 2 * (1 / 4) :=
          mul_lt_mul_of_pos_left hq1 hp
        have hs2 : (d.sinv i) ^ 2 * (d.mag2 i) ^ 2 ≤ (d.sinv i) ^ 2 * (1 / 4) :=
          mul_le_mul_of_nonneg_left (le_of_lt hq2) (sq_nonneg _)
        nlinarith [hs1, hs2, hcs]
      · have hsp : (0 : ℚ) < (d.sinv i) ^ 2 := by nlinarith [hcs]
        have hs1 : (d.cosv i) ^ 2 * (d.mag1 i) ^ 2 ≤ (d.cosv i) ^ 2 * (1 / 4) :=
          mul_le_mul_of_nonneg_left (le_of_lt hq1) (sq_nonneg _)
        have hs2 : (d.sinv i) ^ 2 * (d.mag2 i) ^ 2 < (d.sinv i) ^ 2 * (1 / 4) :=
          mul_lt_mul_of_pos_left hq2 hsp
        nlinarith [hs1, hs2, hcs]
  · intro hfar
    have hc : ¬(i < s.num_bodies ∧ tooFar s.boundary (s.positions i)) :=
      fun hcond => hfar hcond.2
    refine ⟨?_, ?_, ?_⟩ <;> simp only [applyOpen, if_neg hc]

/-- C6 (amended) instantiated at the concrete far-away state and draws. -/
theorem C6_witness :
    (0 : ℚ) < sOpen.boundary
      ∧ 0 < sOpen.num_bodies
      ∧ (dOpen.cosv 0) ^ 2 + (dOpen.sinv 0) ^ 2 = 1
      ∧ 1 / 10 ≤ dOpen.mag1 0 ∧ dOpen.mag1 0 < 1 / 2
      ∧ 1 / 10 ≤ dOpen.mag2 0 ∧ dOpen.mag2 0 < 1 / 2
      ∧ ((tooFar sOpen.boundary (sOpen.positions 0) →
          (applyOpen sOpen dOpen).positions 0
              = (dOpen.cosv 0 * (sOpen.boundary / 2 * (9 / 10)),
                 dOpen.sinv 0 * (sOpen.boundary / 2 * (9 / 10)))
          ∧ ((applyOpen sOpen dOpen).positions 0).1 ^ 2
              + ((applyOpen sOpen dOpen).positions 0).2 ^ 2
              = (sOpen.boundary / 2 * (9 / 10)) ^ 2
          ∧ (applyOpen sOpen dOpen).velocities 0
              = (-(dOpen.cosv 0) * dOpen.mag1 0, -(dOpen.sinv 0) * dOpen.mag2 0)
          ∧ ((applyOpen sOpen dOpen).velocities 0).1
                * ((applyOpen sOpen dOpen).positions 0).1
              + ((applyOpen sOpen dOpen).velocities 0).2
                * ((applyOpen sOpen dOpen).positions 0).2 < 0
          ∧ (1 / 10) ^ 2
              ≤ ((applyOpen sOpen dOpen).velocities 0).1 ^ 2
                + ((applyOpen sOpen dOpen).velocities 0).2 ^ 2
          ∧ ((applyOpen sOpen dOpen).velocities 0).1 ^ 2
                + ((applyOpen sOpen dOpen).velocities 0).2 ^ 2 < (1 / 2) ^ 2
          ∧ (applyOpen sOpen dOpen).trails 0 = [])
        ∧ (¬tooFar sOpen.boundary (sOpen.positions 0) →
          (applyOpen sOpen dOpen).positions 0 = sOpen.positions 0
          ∧ (applyOpen sOpen dOpen).velocities 0 = sOpen.velocities 0
          ∧ (applyOpen sOpen dOpen).trails 0 = sOpen.trails 0)) :=
  ⟨by norm_num [sOpen, sSample], by decide,
    by norm_num [dOpen], by norm_num [dOpen], by norm_num [dOpen],
    by norm_num [dOpen], by norm_num [dOpen],
    C6_open_mode sOpen dOpen 0 (by norm_num [sOpen, sSample]) (by decide)
      (by norm_num [dOpen]) (by norm_num [dOpen]) (by norm_num [dOpen])
      (by norm_num [dOpen]) (by norm_num [dOpen])⟩

end NBodySim
